import Mathlib

/-!
Shallow embedding of the URL-extraction core of the `taupe` program
(`src/taupe/__main__.py`): the tweet classifier `tweet_data`, the like
extractor `likes_from`, the sorted tweet pipeline `tweets_from`, and the
output projection `data_filter`, together with theorems settling the
specification claims about them.
-/

namespace Taupe

/-- The normalized 4-slot record tuple `(timestamp, own_url, category,
referenced_url)` produced by the classifier and the like extractor. -/
abbrev Tup := String × String × String × String

/-- One element of a tweet record's `entities.urls` collection: a shortened
in-text URL together with its expanded destination URL. -/
structure UrlEntity where
  url : String
  expanded_url : String
deriving DecidableEq

/-- A decoded tweet record, restricted to the fields the classifier reads.
`in_reply_to_status_id_str = none` models the key being absent or JSON
`null`; `in_reply_to_screen_name = none` models the key being absent (the
code distinguishes key absence from an empty value here);
`entities_urls = none` models the record having no `entities`/`urls`
collection at all (accessing it then raises a `KeyError` in the code). -/
structure TweetRecord where
  id_str : String
  created_at : String
  full_text : String
  in_reply_to_status_id_str : Option String := none
  in_reply_to_screen_name : Option String := none
  entities_urls : Option (List UrlEntity) := none
deriving DecidableEq

/-- Python's ASCII whitespace class for the regex `\S` (the archive data
relevant to the claims contains no exotic Unicode whitespace). -/
def pyIsSpace (c : Char) : Bool :=
  c = ' ' || c = '\t' || c = '\n' || c = '\r' || c = '\x0b' || c = '\x0c'

/-- The characters of the literal `https://t.co/` (13 characters). -/
def tcoLit : List Char := "https://t.co/".data

/-- Whether the regex group `(https://t.co/\S+)` can match at offset `i` of
`body` and extend to the end of `body`, with the preceding prefix matched by
`.*` (which cannot cross a newline). -/
def tcoOkAt (body : List Char) (i : Nat) : Bool :=
  tcoLit.isPrefixOf (body.drop i)
    && !(body.drop (i + 13)).isEmpty
    && (body.drop (i + 13)).all (fun c => !pyIsSpace c)
    && (body.take i).all (fun c => c ≠ '\n')

/-- The match group of Python's `re.compile(r'.*(https://t.co/\S+)$').match(s)`:
`$` may match at the very end or just before one final newline, `.*` is greedy
(so the group starts at the last feasible offset), and `\S+` must cover
everything from the group start to the `$` position. Returns `none` when the
regex does not match. -/
def trailingTco (s : String) : Option String :=
  let cs := s.data
  let body := if cs.getLast? = some '\n' then cs.dropLast else cs
  match ((List.range (body.length + 1)).filter (tcoOkAt body)).getLast? with
  | some i => some (String.mk (body.drop i))
  | none => none

/-- `tweet_url` from the source: `https://twitter.com/<account>/status/<id_str>`
where `<account>` is `twitter` when canonical URLs are requested, else the
archive owner's username. -/
def tweet_url (canonical : Bool) (username : String) (t : TweetRecord) : String :=
  let account := if canonical then "twitter" else username
  "https://twitter.com/" ++ account ++ "/status/" ++ t.id_str

/-- `tweet_date` from the source parses `created_at` with an external date
library and renders it in ISO-8601; that library call is outside this
repository, so the embedding carries the record's timestamp string through
unchanged.  No claim depends on the textual format of this slot. -/
def tweet_date (t : TweetRecord) : String :=
  t.created_at

/-- Python's `fragment.find('/')`-based slice in `user_from_tweet_url`:
`fragment[: fragment.find('/')]`, where `find` returns `-1` when absent, in
which case the slice is `fragment[:-1]` (everything but the last character). -/
def user_from_tweet_url (canonical : Bool) (url : String) : String :=
  if canonical then "twitter"
  else
    let fragment := url.data.drop 20
    match fragment.findIdx? (fun c => c = '/') with
    | some n => String.mk (fragment.take n)
    | none => String.mk fragment.dropLast

/-- Python's `url.rfind('/')`: the index of the last `/`, or `-1` if none. -/
def pyRfindSlash (s : String) : Int :=
  match s.data.reverse.findIdx? (fun c => c = '/') with
  | some k => ((s.data.length - 1 - k : Nat) : Int)
  | none => -1

/-- The suffix slice `url[url.rfind('/') + 1 :]` used for the quoted tweet id. -/
def afterLastSlash (s : String) : String :=
  String.mk (s.data.drop (pyRfindSlash s + 1).toNat)

/-- Python's `s.startswith(pre)`: code-point prefix test (structural, on the
character lists). -/
def pyStartsWith (s pre : String) : Bool := pre.data.isPrefixOf s.data

/-- The entity-scanning loop inside `tweet_data`: skip entities whose
shortened `url` differs from the one pulled from the text (`continue`); at
the first one that matches, stop (`break`) — producing a quote tuple when its
expansion points into `https://twitter.com`, and leaving the default
`('tweet', '')` otherwise. -/
def scan_entities (canonical : Bool) (embedded : String) :
    List UrlEntity → String × String
  | [] => ("tweet", "")
  | e :: rest =>
    if e.url ≠ embedded then scan_entities canonical embedded rest
    else if ¬ pyStartsWith e.expanded_url "https://twitter.com" then ("tweet", "")
    else
      let author := user_from_tweet_url canonical e.expanded_url
      let tweet_id := afterLastSlash e.expanded_url
      ("quote", "https://twitter.com/" ++ author ++ "/status/" ++ tweet_id)

/-- `tweet_data` from the source: classify one decoded tweet record and build
its normalized tuple.  Returns `none` exactly when the code would raise a
`KeyError`: the trailing-URL regex matched but the record has no
`entities.urls` collection. -/
def tweet_data (canonical : Bool) (username : String) (t : TweetRecord) :
    Option Tup :=
  let tdate := tweet_date t
  let turl := tweet_url canonical username t
  if (t.in_reply_to_status_id_str.getD "") ≠ "" then
    let author :=
      if canonical then "twitter"
      else
        match t.in_reply_to_screen_name with
        | none => "twitter"
        | some sn => sn
    let tweet_id := t.in_reply_to_status_id_str.getD ""
    some (tdate, turl, "reply",
      "https://twitter.com/" ++ author ++ "/status/" ++ tweet_id)
  else if pyStartsWith t.full_text "RT @" then
    some (tdate, turl, "retweet", "")
  else
    match trailingTco t.full_text with
    | some embedded =>
      match t.entities_urls with
      | none => none
      | some urls =>
        let r := scan_entities canonical embedded urls
        some (tdate, turl, r.1, r.2)
    | none => some (tdate, turl, "tweet", "")

/-- Python's `str.replace('i/web', account)`: replace every occurrence of
`i/web`, scanning left to right, non-overlapping. -/
def replaceIWeb (account : List Char) : List Char → List Char
  | 'i' :: '/' :: 'w' :: 'e' :: 'b' :: rest => account ++ replaceIWeb account rest
  | c :: rest => c :: replaceIWeb account rest
  | [] => []

/-- `likes_from` from the source, after JSON decoding: each like record
carries one `expandedUrl` string; the output is one degenerate tuple per
record, in the order the records appear in the likes file (no sorting). -/
def likes_from (canonical : Bool) (username : String) (likes : List String) :
    List Tup :=
  let account := if canonical then "twitter" else username
  likes.map (fun url => ("", "", "like", String.mk (replaceIWeb account.data url.data)))

/-- Python's `<` on strings, as a Boolean function on their character lists:
lexicographic comparison by code point. -/
def strLtb : List Char → List Char → Bool
  | [], [] => false
  | [], _ :: _ => true
  | _ :: _, [] => false
  | a :: as, b :: bs => if a < b then true else if b < a then false else strLtb as bs

/-- Python's `<=` on strings: `x <= y` iff not `y < x` (total order). -/
def lastLeb (x y : String) : Bool := !(strLtb y.data x.data)

/-- Lexicographic comparison on a pair whose first component is a string:
strictly smaller first component, or equal first components and related
second components. -/
def strPairLeb {β : Type} (f : β → β → Bool) (x y : String × β) : Bool :=
  strLtb x.1.data y.1.data || (x.1.data == y.1.data && f x.2 y.2)

/-- Python's `<=` on the 4-tuples of strings used by `sorted`:
lexicographic on the tuple, strings compared by code point. -/
def tupLEb : Tup → Tup → Bool :=
  strPairLeb (strPairLeb (strPairLeb lastLeb))

/-- The tuple order as a relation. -/
def tupLE (a b : Tup) : Prop := tupLEb a b = true

instance tupLEDecidable : DecidableRel tupLE :=
  fun a b => Bool.decEq (tupLEb a b) true

/-- `tweets_from` from the source: classify every record and sort the
resulting tuples (`sorted(...)`, Python tuple order); `none` when any record
makes the classifier raise. -/
def tweets_from (canonical : Bool) (username : String)
    (tweets : List TweetRecord) : Option (List Tup) :=
  (tweets.mapM (tweet_data canonical username)).map
    (fun rows => List.insertionSort tupLE rows)

/-- `data_filter` from the source: map the canonical extraction mode to the
projection applied to each tuple (`row[0]`..`row[3]` are timestamp, own URL,
category, referenced URL); unknown modes give `none` (dict `.get`). -/
def data_filter (requested : String) : Option (Tup → String) :=
  if requested = "all-tweets" then
    some (fun row => String.intercalate "," [row.1, row.2.1, row.2.2.1, row.2.2.2])
  else if requested = "my-tweets" then
    some (fun row => row.2.1)
  else if requested = "retweets" then
    some (fun row => if row.2.2.1 = "retweet" then row.2.1 else "")
  else if requested = "quote-tweets" then
    some (fun row => if row.2.2.1 = "quote" then row.2.2.2 else "")
  else if requested = "reply-tweets" then
    some (fun row => if row.2.2.1 = "reply" then row.2.2.2 else "")
  else if requested = "likes" then
    some (fun row => row.2.2.2)
  else none

/-- The projection pipeline in `main`: `filter(None, map(data_filter(requested),
data))` — project every tuple, then drop the rows whose projection is the
empty string (Python falsiness). -/
def filtered_rows (requested : String) (rows : List Tup) : Option (List String) :=
  (data_filter requested).map (fun f => (rows.map f).filter (fun s => s != ""))

/-! ### Order facts for the tuple comparison used by `sorted` -/

theorem strLtb_irrefl : ∀ l, strLtb l l = false
  | [] => rfl
  | a :: as => by simp [strLtb, strLtb_irrefl as]

theorem strLtb_asymm : ∀ l1 l2, strLtb l1 l2 = true → strLtb l2 l1 = false
  | [], [], h => by simp [strLtb] at h
  | [], _ :: _, _ => rfl
  | _ :: _, [], h => by simp [strLtb] at h
  | a :: as, b :: bs, h => by
    by_cases hab : a < b
    · simp [strLtb, lt_asymm hab, hab]
    · by_cases hba : b < a
      · simp [strLtb, hab, hba] at h
      · simp only [strLtb, if_neg hab, if_neg hba] at h
        simp [strLtb, hab, hba, strLtb_asymm as bs h]

theorem strLtb_trans :
    ∀ l1 l2 l3, strLtb l1 l2 = true → strLtb l2 l3 = true → strLtb l1 l3 = true
  | [], l2, l3, h12, h23 => by
    cases l3 with
    | cons c cs => rfl
    | nil => cases l2 <;> simp [strLtb] at h23
  | _ :: _, [], _, h12, _ => by simp [strLtb] at h12
  | _ :: _, _ :: _, [], _, h23 => by simp [strLtb] at h23
  | a :: as, b :: bs, c :: cs, h12, h23 => by
    by_cases hab : a < b
    · by_cases hbc : b < c
      · simp [strLtb, lt_trans hab hbc]
      · by_cases hcb : c < b
        · simp [strLtb, hbc, hcb] at h23
        · have : b = c := le_antisymm (not_lt.1 hcb) (not_lt.1 hbc)
          subst this
          simp [strLtb, hab]
    · by_cases hba : b < a
      · simp [strLtb, hab, hba] at h12
      · have : a = b := le_antisymm (not_lt.1 hba) (not_lt.1 hab)
        subst this
        simp only [strLtb, if_neg hab, if_neg hba] at h12
        by_cases hac : a < c
        · simp [strLtb, hac]
        · by_cases hca : c < a
          · simp [strLtb, hac, hca] at h23
          · simp only [strLtb, if_neg hac, if_neg hca] at h23 ⊢
            exact strLtb_trans as bs cs h12 h23

theorem strLtb_connected :
    ∀ l1 l2, l1 ≠ l2 → strLtb l1 l2 = true ∨ strLtb l2 l1 = true
  | [], [], h => absurd rfl h
  | [], _ :: _, _ => Or.inl rfl
  | _ :: _, [], _ => Or.inr rfl
  | a :: as, b :: bs, h => by
    rcases lt_trichotomy a b with hab | heq | hba
    · exact Or.inl (by simp [strLtb, hab])
    · subst heq
      have has : as ≠ bs := fun hc => h (hc ▸ rfl)
      rcases strLtb_connected as bs has with h1 | h1
      · exact Or.inl (by simp [strLtb, h1])
      · exact Or.inr (by simp [strLtb, h1])
    · exact Or.inr (by simp [strLtb, hba])

theorem lastLeb_total (x y : String) : lastLeb x y = true ∨ lastLeb y x = true := by
  by_cases hxy : strLtb y.data x.data = true
  · exact Or.inr (by simp [lastLeb, strLtb_asymm _ _ hxy])
  · exact Or.inl (by simp [lastLeb, Bool.not_eq_true _ ▸ hxy])

theorem lastLeb_trans (x y z : String) (h1 : lastLeb x y = true)
    (h2 : lastLeb y z = true) : lastLeb x z = true := by
  simp only [lastLeb, Bool.not_eq_true'] at h1 h2 ⊢
  by_contra hc
  have hzx : strLtb z.data x.data = true := by
    revert hc
    cases strLtb z.data x.data <;> simp
  by_cases hd : z.data = y.data
  · rw [hd] at hzx
    exact absurd hzx (by simp [h1])
  · rcases strLtb_connected z.data y.data hd with h3 | h3
    · exact absurd h3 (by simp [h2])
    · exact absurd (strLtb_trans _ _ _ h3 hzx) (by simp [h1])

theorem strPairLeb_total {β : Type} (f : β → β → Bool)
    (hf : ∀ x y, f x y = true ∨ f y x = true) (a b : String × β) :
    strPairLeb f a b = true ∨ strPairLeb f b a = true := by
  by_cases hd : a.1.data = b.1.data
  · rcases hf a.2 b.2 with h1 | h1
    · exact Or.inl (by simp [strPairLeb, hd, h1])
    · exact Or.inr (by simp [strPairLeb, hd, h1])
  · rcases strLtb_connected a.1.data b.1.data hd with h1 | h1
    · exact Or.inl (by simp [strPairLeb, h1])
    · exact Or.inr (by simp [strPairLeb, h1])

theorem strPairLeb_trans {β : Type} (f : β → β → Bool)
    (hf : ∀ x y z, f x y = true → f y z = true → f x z = true)
    (a b c : String × β) (h1 : strPairLeb f a b = true)
    (h2 : strPairLeb f b c = true) : strPairLeb f a c = true := by
  simp only [strPairLeb, Bool.or_eq_true, Bool.and_eq_true, beq_iff_eq] at h1 h2 ⊢
  rcases h1 with h1 | ⟨h1e, h1f⟩ <;> rcases h2 with h2 | ⟨h2e, h2f⟩
  · exact Or.inl (strLtb_trans _ _ _ h1 h2)
  · exact Or.inl (h2e ▸ h1)
  · exact Or.inl (h1e ▸ h2)
  · exact Or.inr ⟨h1e.trans h2e, hf _ _ _ h1f h2f⟩

instance tupLETotal : IsTotal Tup tupLE :=
  ⟨fun a b =>
    strPairLeb_total _
      (fun x y =>
        strPairLeb_total _
          (fun x y => strPairLeb_total _ (fun x y => lastLeb_total x y) x y) x y)
      a b⟩

instance tupLETrans : IsTrans Tup tupLE :=
  ⟨fun a b c =>
    strPairLeb_trans _
      (fun x y z =>
        strPairLeb_trans _
          (fun x y z =>
            strPairLeb_trans _ (fun x y z => lastLeb_trans x y z) x y z) x y z)
      a b c⟩

/-! ### Helper facts about the classifier -/

/-- The reply condition of step 1: the record's `in_reply_to_status_id_str`
is present and non-empty (Python truthiness of `tweet.get(...)`). -/
def isReplyRecord (t : TweetRecord) : Prop :=
  t.in_reply_to_status_id_str.getD "" ≠ ""

/-- The retweet condition of step 2: the full text starts with `RT @`. -/
def isRetweetText (t : TweetRecord) : Prop :=
  pyStartsWith t.full_text "RT @" = true

/-- The quote condition of step 3: the trailing `https://t.co/...` regex
matches, the first URL entity carrying exactly that shortened URL exists, and
its expanded destination starts with `https://twitter.com`. -/
def quoteCheck (t : TweetRecord) : Prop :=
  ∃ em urls e, trailingTco t.full_text = some em ∧ t.entities_urls = some urls ∧
    urls.find? (fun x => x.url == em) = some e ∧
    pyStartsWith e.expanded_url "https://twitter.com" = true

/-- The entity loop is determined by the first entity whose shortened URL
matches the one found in the text. -/
theorem scan_entities_eq_find (c : Bool) (em : String) (urls : List UrlEntity) :
    scan_entities c em urls =
      match urls.find? (fun x => x.url == em) with
      | none => ("tweet", "")
      | some e =>
        if pyStartsWith e.expanded_url "https://twitter.com" then
          ("quote", "https://twitter.com/" ++ user_from_tweet_url c e.expanded_url
            ++ "/status/" ++ afterLastSlash e.expanded_url)
        else ("tweet", "") := by
  induction urls with
  | nil => rfl
  | cons e rest ih =>
    by_cases h : e.url = em
    · by_cases hs : pyStartsWith e.expanded_url "https://twitter.com" = true
      · simp [scan_entities, List.find?_cons, h, hs]
      · simp [scan_entities, List.find?_cons, h, hs]
    · simpa [scan_entities, List.find?_cons, h] using ih

theorem url_concat_ne_empty (a i : String) :
    ("https://twitter.com/" ++ a ++ "/status/" ++ i) ≠ "" := by
  intro hcon
  have hlen := congrArg String.length hcon
  simp [String.length_append] at hlen
  exact absurd hlen.1.1.1 (by decide)

/-- Every tuple the classifier produces carries the record's timestamp and own
URL, and one of four category/referenced-URL shapes. -/
theorem tweet_data_shape (c : Bool) (u : String) (t : TweetRecord) (out : Tup)
    (h : tweet_data c u t = some out) :
    out.1 = tweet_date t ∧ out.2.1 = tweet_url c u t ∧
      ((out.2.2.1 = "reply" ∧
          ∃ a i, out.2.2.2 = "https://twitter.com/" ++ a ++ "/status/" ++ i)
        ∨ (out.2.2.1 = "retweet" ∧ out.2.2.2 = "")
        ∨ (out.2.2.1 = "quote" ∧
            ∃ a i, out.2.2.2 = "https://twitter.com/" ++ a ++ "/status/" ++ i)
        ∨ (out.2.2.1 = "tweet" ∧ out.2.2.2 = "")) := by
  by_cases hr : t.in_reply_to_status_id_str.getD "" ≠ ""
  · simp only [tweet_data, if_pos hr] at h
    obtain rfl : _ = out := Option.some.inj h
    refine ⟨rfl, rfl, Or.inl ⟨rfl, _, _, rfl⟩⟩
  · simp only [tweet_data, if_neg hr] at h
    by_cases hrt : pyStartsWith t.full_text "RT @" = true
    · simp only [hrt, if_pos] at h
      obtain rfl : _ = out := Option.some.inj h
      exact ⟨rfl, rfl, Or.inr (Or.inl ⟨rfl, rfl⟩)⟩
    · simp only [hrt, Bool.false_eq_true, if_neg, if_false] at h
      rcases htc : trailingTco t.full_text with _ | em <;> rw [htc] at h <;>
        dsimp only at h
      · obtain rfl : _ = out := Option.some.inj h
        exact ⟨rfl, rfl, Or.inr (Or.inr (Or.inr ⟨rfl, rfl⟩))⟩
      · rcases hen : t.entities_urls with _ | urls <;> rw [hen] at h <;>
          dsimp only at h
        · exact absurd h (by simp)
        · rw [scan_entities_eq_find] at h
          rcases hfind : urls.find? (fun x => x.url == em) with _ | e <;>
            rw [hfind] at h <;> dsimp only at h
          · obtain rfl : _ = out := Option.some.inj h
            exact ⟨rfl, rfl, Or.inr (Or.inr (Or.inr ⟨rfl, rfl⟩))⟩
          · by_cases hs : pyStartsWith e.expanded_url "https://twitter.com" = true
            · rw [if_pos hs] at h
              obtain rfl : _ = out := Option.some.inj h
              exact ⟨rfl, rfl, Or.inr (Or.inr (Or.inl ⟨rfl, _, _, rfl⟩))⟩
            · rw [if_neg hs] at h
              obtain rfl : _ = out := Option.some.inj h
              exact ⟨rfl, rfl, Or.inr (Or.inr (Or.inr ⟨rfl, rfl⟩))⟩

theorem replaceIWeb_ne_nil (acc : List Char) (hacc : acc ≠ []) :
    ∀ (l : List Char), l ≠ [] → replaceIWeb acc l ≠ [] := by
  intro l hl
  unfold replaceIWeb
  split
  · simp [hacc]
  · simp
  · exact absurd rfl hl

/-! ### Claims C1 and C2 -/

/-- **C1**: every tuple `tweet_data` produces is classified by the ordered
first-match priority chain: category `reply` exactly when the record has a
non-empty "in reply to status id"; otherwise `retweet` exactly when the
full text starts with `RT @`; otherwise `quote` exactly when step 3's
trailing shortened-URL check succeeds; otherwise the default `tweet`; and
`retweet`/`tweet` tuples always carry an empty referenced URL. -/
theorem taupe_c1_priority_chain (c : Bool) (u : String) (t : TweetRecord)
    (out : Tup) (h : tweet_data c u t = some out) :
    (out.2.2.1 = "reply" ↔ isReplyRecord t)
    ∧ (¬ isReplyRecord t → (out.2.2.1 = "retweet" ↔ isRetweetText t))
    ∧ (¬ isReplyRecord t → ¬ isRetweetText t →
        (out.2.2.1 = "quote" ↔ quoteCheck t))
    ∧ (¬ isReplyRecord t → ¬ isRetweetText t → ¬ quoteCheck t →
        out.2.2.1 = "tweet")
    ∧ ((out.2.2.1 = "retweet" ∨ out.2.2.1 = "tweet") → out.2.2.2 = "") := by
  by_cases hr : isReplyRecord t
  · have hr' : t.in_reply_to_status_id_str.getD "" ≠ "" := hr
    simp only [tweet_data, if_pos hr'] at h
    obtain rfl : _ = out := Option.some.inj h
    exact ⟨iff_of_true rfl hr, fun hn => absurd hr hn, fun hn _ => absurd hr hn,
      fun hn _ _ => absurd hr hn, fun hfalse => absurd hfalse (by simp)⟩
  · have hr' : ¬ t.in_reply_to_status_id_str.getD "" ≠ "" := hr
    simp only [tweet_data, if_neg hr'] at h
    by_cases hrt : isRetweetText t
    · have hrt' : pyStartsWith t.full_text "RT @" = true := hrt
      simp only [hrt', if_pos] at h
      obtain rfl : _ = out := Option.some.inj h
      exact ⟨iff_of_false (by simp) hr, fun _ => iff_of_true rfl hrt,
        fun _ hn => absurd hrt hn, fun _ hn _ => absurd hrt hn, fun _ => rfl⟩
    · have hrt' : pyStartsWith t.full_text "RT @" = false :=
        Bool.not_eq_true _ ▸ hrt
      simp only [hrt', Bool.false_eq_true, if_neg, if_false] at h
      rcases htc : trailingTco t.full_text with _ | em <;> rw [htc] at h <;>
        dsimp only at h
      · obtain rfl : _ = out := Option.some.inj h
        refine ⟨iff_of_false (by simp) hr, fun _ => iff_of_false (by simp) hrt,
          fun _ _ => iff_of_false (by simp) ?_, fun _ _ _ => rfl, fun _ => rfl⟩
        rintro ⟨em', urls', e', htc', -, -, -⟩
        rw [htc] at htc'
        exact Option.noConfusion htc'
      · rcases hen : t.entities_urls with _ | urls <;> rw [hen] at h <;>
          dsimp only at h
        · exact absurd h (by simp)
        · rw [scan_entities_eq_find] at h
          rcases hfind : urls.find? (fun x => x.url == em) with _ | e <;>
            rw [hfind] at h <;> dsimp only at h
          · obtain rfl : _ = out := Option.some.inj h
            refine ⟨iff_of_false (by simp) hr,
              fun _ => iff_of_false (by simp) hrt,
              fun _ _ => iff_of_false (by simp) ?_, fun _ _ _ => rfl,
              fun _ => rfl⟩
            rintro ⟨em', urls', e', htc', hen', hfind', -⟩
            rw [htc] at htc'
            obtain rfl : em' = em := (Option.some.inj htc').symm
            rw [hen] at hen'
            obtain rfl : urls' = urls := (Option.some.inj hen').symm
            rw [hfind] at hfind'
            exact Option.noConfusion hfind'
          · by_cases hs : pyStartsWith e.expanded_url "https://twitter.com" = true
            · rw [if_pos hs] at h
              obtain rfl : _ = out := Option.some.inj h
              exact ⟨iff_of_false (by simp) hr,
                fun _ => iff_of_false (by simp) hrt,
                fun _ _ => iff_of_true rfl ⟨em, urls, e, htc, hen, hfind, hs⟩,
                fun _ _ hnq => absurd ⟨em, urls, e, htc, hen, hfind, hs⟩ hnq,
                fun hfalse => absurd hfalse (by simp)⟩
            · rw [if_neg hs] at h
              obtain rfl : _ = out := Option.some.inj h
              refine ⟨iff_of_false (by simp) hr,
                fun _ => iff_of_false (by simp) hrt,
                fun _ _ => iff_of_false (by simp) ?_, fun _ _ _ => rfl,
                fun _ => rfl⟩
              rintro ⟨em', urls', e', htc', hen', hfind', hs'⟩
              rw [htc] at htc'
              obtain rfl : em' = em := (Option.some.inj htc').symm
              rw [hen] at hen'
              obtain rfl : urls' = urls := (Option.some.inj hen').symm
              rw [hfind] at hfind'
              obtain rfl : e' = e := (Option.some.inj hfind').symm
              exact absurd hs' hs

/-- A reply record used to instantiate the claim theorems. -/
def replyRec : TweetRecord :=
  { id_str := "2"
    created_at := "D"
    full_text := "hi"
    in_reply_to_status_id_str := some "9"
    in_reply_to_screen_name := some "bob" }

/-- Witness for C1 at a concrete reply record. -/
theorem taupe_c1_priority_chain_witness :
    ((("D", "https://twitter.com/alice/status/2", "reply",
        "https://twitter.com/bob/status/9") : Tup).2.2.1 = "reply")
      ↔ isReplyRecord replyRec :=
  (taupe_c1_priority_chain false "alice" replyRec
    ("D", "https://twitter.com/alice/status/2", "reply",
      "https://twitter.com/bob/status/9") (by decide)).1

/-- **C2**: for every tuple produced by the tweet classifier or the like
extractor, the referenced-URL slot is non-empty exactly when the category is
`reply`, `quote`, or `like`.  For like tuples this needs the spec's
data-model non-degeneracy: the owner handle in use and each liked record's
expanded URL are non-empty strings. -/
theorem taupe_c2_referenced_url_iff :
    (∀ (c : Bool) (u : String) (t : TweetRecord) (out : Tup),
        tweet_data c u t = some out →
        (out.2.2.2 ≠ "" ↔
          (out.2.2.1 = "reply" ∨ out.2.2.1 = "quote" ∨ out.2.2.1 = "like")))
    ∧ (∀ (c : Bool) (u : String) (likes : List String) (out : Tup),
        (if c then "twitter" else u) ≠ "" → (∀ l ∈ likes, l ≠ "") →
        out ∈ likes_from c u likes →
        (out.2.2.2 ≠ "" ↔
          (out.2.2.1 = "reply" ∨ out.2.2.1 = "quote" ∨ out.2.2.1 = "like"))) := by
  constructor
  · intro c u t out h
    obtain ⟨-, -, hcase⟩ := tweet_data_shape c u t out h
    rcases hcase with ⟨hcat, a, i, href⟩ | ⟨hcat, href⟩ | ⟨hcat, a, i, href⟩ |
      ⟨hcat, href⟩ <;> rw [hcat, href]
    · exact iff_of_true (url_concat_ne_empty a i) (Or.inl rfl)
    · exact iff_of_false (by simp) (by decide)
    · exact iff_of_true (url_concat_ne_empty a i) (Or.inr (Or.inl rfl))
    · exact iff_of_false (by simp) (by decide)
  · intro c u likes out hacc hurls hmem
    obtain ⟨url, hurl, rfl⟩ := List.mem_map.1 hmem
    refine iff_of_true ?_ (Or.inr (Or.inr rfl))
    intro hcon
    have hdata : replaceIWeb (if c then "twitter" else u).data url.data = [] :=
      congrArg String.data hcon
    have haccd : (if c then "twitter" else u).data ≠ [] := by
      intro hd
      exact hacc (String.ext (hd.trans rfl))
    have hurld : url.data ≠ [] := by
      intro hd
      exact hurls url hurl (String.ext (hd.trans rfl))
    exact replaceIWeb_ne_nil _ haccd _ hurld hdata

/-- Witness for C2: the tweet part at a concrete reply record, and the like
part at a concrete like record. -/
theorem taupe_c2_referenced_url_iff_witness :
    (((("D", "https://twitter.com/alice/status/2", "reply",
          "https://twitter.com/bob/status/9") : Tup).2.2.2 ≠ "") ↔
        ((("D", "https://twitter.com/alice/status/2", "reply",
          "https://twitter.com/bob/status/9") : Tup).2.2.1 = "reply" ∨
         (("D", "https://twitter.com/alice/status/2", "reply",
          "https://twitter.com/bob/status/9") : Tup).2.2.1 = "quote" ∨
         (("D", "https://twitter.com/alice/status/2", "reply",
          "https://twitter.com/bob/status/9") : Tup).2.2.1 = "like"))
    ∧ (((("", "", "like", "https://twitter.com/alice/status/42") : Tup).2.2.2 ≠ "") ↔
        ((("", "", "like", "https://twitter.com/alice/status/42") : Tup).2.2.1 = "reply" ∨
         (("", "", "like", "https://twitter.com/alice/status/42") : Tup).2.2.1 = "quote" ∨
         (("", "", "like", "https://twitter.com/alice/status/42") : Tup).2.2.1 = "like")) :=
  ⟨taupe_c2_referenced_url_iff.1 false "alice" replyRec
      ("D", "https://twitter.com/alice/status/2", "reply",
        "https://twitter.com/bob/status/9") (by decide),
   taupe_c2_referenced_url_iff.2 false "alice"
      ["https://twitter.com/i/web/status/42"]
      ("", "", "like", "https://twitter.com/alice/status/42")
      (by decide) (by decide) (by decide)⟩

/-! ### Claim C3 -/

/-- **C3 counterexample**: the like extractor emits tuples in archive order,
so a likes file whose URLs arrive in descending order produces an output
sequence that is *not* lexicographically sorted — refuting the claim that the
full result set is sorted "both when extracting tweets and when extracting
likes". -/
theorem taupe_c3_counterexample :
    ¬ List.Sorted tupLE (likes_from false "user"
      ["https://twitter.com/x/status/2", "https://twitter.com/x/status/1"]) := by
  decide

/-- **C3 (amended)**: the tweet pipeline sorts its tuples lexicographically
(Python `sorted` on the 4-tuples), while the like extractor emits exactly one
tuple per like record in the order the records appear in the archive, with no
sorting applied. -/
theorem taupe_c3_amended :
    (∀ (c : Bool) (u : String) (tweets : List TweetRecord) (out : List Tup),
        tweets_from c u tweets = some out → List.Sorted tupLE out)
    ∧ (∀ (c : Bool) (u : String) (likes : List String),
        ∃ f : String → Tup, likes_from c u likes = List.map f likes) := by
  constructor
  · intro c u tweets out h
    obtain ⟨rows, -, rfl⟩ := Option.map_eq_some'.1 h
    exact List.sorted_insertionSort tupLE rows
  · intro c u likes
    exact ⟨fun url => ("", "", "like",
      String.mk (replaceIWeb (if c then "twitter" else u).data url.data)), rfl⟩

/-- Witness for the amended C3: the sorted-tweets part applied to a concrete
two-record archive whose classified tuples arrive unsorted. -/
theorem taupe_c3_amended_witness :
    List.Sorted tupLE
      [("C", "https://twitter.com/alice/status/3", "tweet", ""),
       ("D", "https://twitter.com/alice/status/2", "reply",
         "https://twitter.com/bob/status/9")] :=
  taupe_c3_amended.1 false "alice"
    [replyRec, { id_str := "3", created_at := "C", full_text := "hi" }]
    [("C", "https://twitter.com/alice/status/3", "tweet", ""),
     ("D", "https://twitter.com/alice/status/2", "reply",
       "https://twitter.com/bob/status/9")]
    (by decide)

/-! ### Claims C4 and C10 -/

/-- **C4**: for a reply record (non-empty "in reply to status id"), the
referenced author is `twitter` when the canonical flag is set; otherwise the
record's "in reply to screen name" when that key is present, else the
fallback handle `twitter` (no error when it is missing); the referenced URL
is `https://twitter.com/<author>/status/<in_reply_to_id>`. -/
theorem taupe_c4_reply_author (u : String) (t : TweetRecord) (rid : String)
    (h1 : t.in_reply_to_status_id_str = some rid) (h2 : rid ≠ "") :
    (tweet_data true u t = some (tweet_date t, tweet_url true u t, "reply",
        "https://twitter.com/" ++ "twitter" ++ "/status/" ++ rid))
    ∧ (∀ sn, t.in_reply_to_screen_name = some sn →
        tweet_data false u t = some (tweet_date t, tweet_url false u t, "reply",
          "https://twitter.com/" ++ sn ++ "/status/" ++ rid))
    ∧ (t.in_reply_to_screen_name = none →
        tweet_data false u t = some (tweet_date t, tweet_url false u t, "reply",
          "https://twitter.com/" ++ "twitter" ++ "/status/" ++ rid)) := by
  have hg : t.in_reply_to_status_id_str.getD "" = rid := by rw [h1]; rfl
  have hcond : t.in_reply_to_status_id_str.getD "" ≠ "" := by rw [hg]; exact h2
  refine ⟨?_, ?_, ?_⟩
  · simp [tweet_data, hcond, hg, h2]
  · intro sn hsn
    simp [tweet_data, hcond, hg, h2, hsn]
  · intro hsn
    simp [tweet_data, hcond, hg, h2, hsn]

/-- A reply record whose referenced author's account was deleted: the
archive omits the "in reply to screen name" key entirely. -/
def replyRecDeleted : TweetRecord :=
  { id_str := "7"
    created_at := "D"
    full_text := "hi"
    in_reply_to_status_id_str := some "9" }

/-- Witness for C4: both the present-screen-name and the deleted-author
fallback cases at concrete records. -/
theorem taupe_c4_reply_author_witness :
    (tweet_data false "alice" replyRec = some ("D",
      "https://twitter.com/alice/status/2", "reply",
      "https://twitter.com/" ++ "bob" ++ "/status/" ++ "9"))
    ∧ (tweet_data false "alice" replyRecDeleted = some ("D",
      "https://twitter.com/alice/status/7", "reply",
      "https://twitter.com/" ++ "twitter" ++ "/status/" ++ "9")) :=
  ⟨(taupe_c4_reply_author "alice" replyRec "9" rfl (by decide)).2.1 "bob" rfl,
   (taupe_c4_reply_author "alice" replyRecDeleted "9" rfl (by decide)).2.2 rfl⟩

/-- **C10**: the deleted-author fallback to `twitter` fires only when the
"in reply to screen name" key is absent; a record carrying the key with an
empty-string value uses that empty string verbatim as the referenced author,
yielding `https://twitter.com//status/<id>` with a double slash. -/
theorem taupe_c10_empty_screen_name (u : String) (t : TweetRecord) (rid : String)
    (h1 : t.in_reply_to_status_id_str = some rid) (h2 : rid ≠ "")
    (h3 : t.in_reply_to_screen_name = some "") :
    tweet_data false u t = some (tweet_date t, tweet_url false u t, "reply",
      "https://twitter.com//status/" ++ rid) := by
  have hg : t.in_reply_to_status_id_str.getD "" = rid := by rw [h1]; rfl
  have hcond : t.in_reply_to_status_id_str.getD "" ≠ "" := by rw [hg]; exact h2
  have key : ("https://twitter.com/" ++ "" ++ "/status/" : String) =
      "https://twitter.com//status/" := by decide
  simp [tweet_data, hcond, hg, h2, h3, key]

/-- A reply record carrying an empty-string screen name. -/
def replyRecEmptyName : TweetRecord :=
  { id_str := "8"
    created_at := "D"
    full_text := "hi"
    in_reply_to_status_id_str := some "9"
    in_reply_to_screen_name := some "" }

/-- Witness for C10 at a concrete record. -/
theorem taupe_c10_empty_screen_name_witness :
    tweet_data false "alice" replyRecEmptyName = some ("D",
      "https://twitter.com/alice/status/8", "reply",
      "https://twitter.com//status/" ++ "9") :=
  taupe_c10_empty_screen_name "alice" replyRecEmptyName "9" rfl (by decide) rfl

/-! ### Claim C5 -/

theorem findIdx_slash_spec :
    ∀ (l : List Char), '/' ∈ l → ∀ i : Nat,
      ∃ n pre post, l.findIdx? (fun c => c = '/') i = some (i + n) ∧
        l = pre ++ '/' :: post ∧ pre.length = n ∧ '/' ∉ pre := by
  intro l
  induction l with
  | nil => intro h; cases h
  | cons c rest ih =>
    intro hmem i
    by_cases hc : c = '/'
    · subst hc
      exact ⟨0, [], rest, by simp [List.findIdx?_cons], by simp, rfl, by simp⟩
    · have hmem' : '/' ∈ rest := by
        rcases List.mem_cons.1 hmem with h | h
        · exact absurd h.symm hc
        · exact h
      obtain ⟨n, pre, post, hfind, hsplit, hlen, hnot⟩ := ih hmem' (i + 1)
      refine ⟨n + 1, c :: pre, post, ?_, ?_, by simp [hlen], ?_⟩
      · rw [List.findIdx?_cons]
        simp only [hc, decide_False, Bool.false_eq_true, if_false]
        rw [hfind]
        congr 1
        omega
      · simpa using congrArg (c :: ·) hsplit
      · intro hm
        rcases List.mem_cons.1 hm with h | h
        · exact hc h.symm
        · exact hnot h

/-- For a non-canonical run, the author pulled out of an expanded tweet URL
is the first path segment after the 20-character prefix
`https://twitter.com/`: the text up to (exclusive) the first `/` of the
remaining fragment. -/
theorem user_from_tweet_url_spec (url : String)
    (h : '/' ∈ url.data.drop 20) :
    ∃ author : String, user_from_tweet_url false url = author ∧
      '/' ∉ author.data ∧
      ∃ post, url.data.drop 20 = author.data ++ '/' :: post := by
  obtain ⟨n, pre, post, hfind, hsplit, hlen, hnot⟩ := findIdx_slash_spec _ h 0
  refine ⟨String.mk pre, ?_, by simpa using hnot, post, by simpa using hsplit⟩
  simp only [user_from_tweet_url, Bool.false_eq_true, if_false]
  rw [show (url.data.drop 20).findIdx? (fun c => c = '/') = some n from by
    simpa using hfind]
  show String.mk ((url.data.drop 20).take n) = String.mk pre
  rw [hsplit, List.take_left' hlen]

/-- The quoted tweet id slice `url[url.rfind('/') + 1 :]` is the suffix after
the last `/`: the unique slash-free tail following a `/`. -/
theorem afterLastSlash_spec (s : String) (h : '/' ∈ s.data) :
    ∃ tid : String, afterLastSlash s = tid ∧ '/' ∉ tid.data ∧
      ∃ pre, s.data = pre ++ '/' :: tid.data := by
  have hrev : '/' ∈ s.data.reverse := List.mem_reverse.2 h
  obtain ⟨n, pre, post, hfind, hsplit, hlen, hnot⟩ := findIdx_slash_spec _ hrev 0
  have hs : s.data = post.reverse ++ '/' :: pre.reverse := by
    have h2 := congrArg List.reverse hsplit
    simpa [List.reverse_append] using h2
  have hlen2 : s.data.length = post.length + 1 + n := by
    have h3 := congrArg List.length hsplit
    simp only [List.length_reverse, List.length_append, List.length_cons, hlen] at h3
    omega
  refine ⟨String.mk pre.reverse, ?_,
    fun hmem => hnot (List.mem_reverse.1 hmem), post.reverse, hs⟩
  unfold afterLastSlash pyRfindSlash
  rw [show s.data.reverse.findIdx? (fun c => c = '/') = some n from by
    simpa using hfind]
  have htn : (((s.data.length - 1 - n : Nat) : Int) + 1).toNat = post.length + 1 := by
    omega
  rw [htn]
  congr 1
  rw [hs]
  rw [show post.reverse ++ '/' :: pre.reverse = (post.reverse ++ ['/']) ++ pre.reverse
    from by simp]
  exact List.drop_left' (by simp)

/-- A quote record whose expanded destination URL has two path segments
(`a/b`) before `/status/`. -/
def quoteRecMulti : TweetRecord :=
  { id_str := "1"
    created_at := "D"
    full_text := "see https://t.co/abc"
    entities_urls := some [⟨"https://t.co/abc", "https://twitter.com/a/b/status/77"⟩] }

/-- **C5 counterexample**: on an expanded URL with more than one path segment
before `/status/` (`https://twitter.com/a/b/status/77`), the classifier takes
only the first segment `a` as the author — not the whole span `a/b` between
the domain and `/status/` as the claim states — so the referenced URL is
`https://twitter.com/a/status/77`, not `https://twitter.com/a/b/status/77`. -/
theorem taupe_c5_counterexample :
    tweet_data false "me" quoteRecMulti = some ("D",
      "https://twitter.com/me/status/1", "quote",
      "https://twitter.com/a/status/77")
    ∧ tweet_data false "me" quoteRecMulti ≠ some ("D",
      "https://twitter.com/me/status/1", "quote",
      "https://twitter.com/a/b/status/77") := by
  exact ⟨by decide, by decide⟩

/-- **C5 (amended)**: in the non-canonical quote case, the referenced author
is the *first path segment* of the expanded URL after the 20-character
domain prefix (the text before the first `/` of the remainder; for ordinary
single-segment status URLs this coincides with the segment before
`/status/`), the tweet id is the segment after the last `/`, and the
referenced URL is `https://twitter.com/<author>/status/<id>`. -/
theorem taupe_c5_amended (u : String) (t : TweetRecord) (em : String)
    (urls : List UrlEntity) (e : UrlEntity)
    (h1 : t.in_reply_to_status_id_str.getD "" = "")
    (h2 : pyStartsWith t.full_text "RT @" = false)
    (h3 : trailingTco t.full_text = some em)
    (h4 : t.entities_urls = some urls)
    (h5 : urls.find? (fun x => x.url == em) = some e)
    (h6 : pyStartsWith e.expanded_url "https://twitter.com" = true)
    (h7 : '/' ∈ e.expanded_url.data.drop 20) :
    ∃ author tid : String,
      tweet_data false u t = some (tweet_date t, tweet_url false u t, "quote",
        "https://twitter.com/" ++ author ++ "/status/" ++ tid)
      ∧ '/' ∉ author.data
      ∧ (∃ post, e.expanded_url.data.drop 20 = author.data ++ '/' :: post)
      ∧ '/' ∉ tid.data
      ∧ (∃ pre, e.expanded_url.data = pre ++ '/' :: tid.data) := by
  obtain ⟨author, hau, hanot, post, hasplit⟩ := user_from_tweet_url_spec
    e.expanded_url h7
  have h7' : '/' ∈ e.expanded_url.data := List.drop_subset _ _ h7
  obtain ⟨tid, hti, htnot, pre, htsplit⟩ := afterLastSlash_spec e.expanded_url h7'
  refine ⟨author, tid, ?_, hanot, ⟨post, hasplit⟩, htnot, ⟨pre, htsplit⟩⟩
  have hcond : ¬ (t.in_reply_to_status_id_str.getD "" ≠ "") := by simp [h1]
  simp only [tweet_data, if_neg hcond, h2, Bool.false_eq_true, if_false, h3, h4]
  rw [scan_entities_eq_find]
  simp only [h5, if_pos h6, hau, hti]

/-- Witness for the amended C5 at a concrete single-segment quote record. -/
theorem taupe_c5_amended_witness :
    ∃ author tid : String,
      tweet_data false "me"
        { id_str := "1"
          created_at := "D"
          full_text := "see https://t.co/abc"
          entities_urls := some
            [⟨"https://t.co/abc", "https://twitter.com/carol/status/77"⟩] } =
        some ("D", "https://twitter.com/me/status/1", "quote",
          "https://twitter.com/" ++ author ++ "/status/" ++ tid)
      ∧ '/' ∉ author.data
      ∧ (∃ post,
          ("https://twitter.com/carol/status/77" : String).data.drop 20 =
            author.data ++ '/' :: post)
      ∧ '/' ∉ tid.data
      ∧ (∃ pre, ("https://twitter.com/carol/status/77" : String).data =
          pre ++ '/' :: tid.data) :=
  taupe_c5_amended "me"
    { id_str := "1"
      created_at := "D"
      full_text := "see https://t.co/abc"
      entities_urls := some
        [⟨"https://t.co/abc", "https://twitter.com/carol/status/77"⟩] }
    "https://t.co/abc"
    [⟨"https://t.co/abc", "https://twitter.com/carol/status/77"⟩]
    ⟨"https://t.co/abc", "https://twitter.com/carol/status/77"⟩
    (by decide) (by decide) (by decide) (by decide) (by decide) (by decide)
    (by decide)

/-! ### Claim C6 -/

theorem scan_entities_append_no_match (c : Bool) (em : String)
    (pre rest : List UrlEntity) (h : ∀ x ∈ pre, x.url ≠ em) :
    scan_entities c em (pre ++ rest) = scan_entities c em rest := by
  induction pre with
  | nil => rfl
  | cons e pre ih =>
    have he : e.url ≠ em := h e (List.mem_cons_self ..)
    simp only [List.cons_append, scan_entities, if_pos he]
    exact ih (fun x hx => h x (List.mem_cons_of_mem _ hx))

/-- **C6**: once the trailing `t.co` URL is found in the text, the entity
loop stops at the *first* entity whose shortened URL matches it; if that
entity's expansion does not start with `https://twitter.com`, no further
entities are tried and the record falls through to the default category
`tweet`; the same default applies when no entity matches at all. -/
theorem taupe_c6_scan_stops (c : Bool) (u : String) (t : TweetRecord)
    (em : String)
    (h1 : t.in_reply_to_status_id_str.getD "" = "")
    (h2 : pyStartsWith t.full_text "RT @" = false)
    (h3 : trailingTco t.full_text = some em) :
    (∀ pre e post, t.entities_urls = some (pre ++ e :: post) →
        (∀ x ∈ pre, x.url ≠ em) → e.url = em →
        pyStartsWith e.expanded_url "https://twitter.com" = false →
        tweet_data c u t = some (tweet_date t, tweet_url c u t, "tweet", ""))
    ∧ (∀ urls, t.entities_urls = some urls → (∀ x ∈ urls, x.url ≠ em) →
        tweet_data c u t = some (tweet_date t, tweet_url c u t, "tweet", "")) := by
  have hcond : ¬ (t.in_reply_to_status_id_str.getD "" ≠ "") := by simp [h1]
  constructor
  · intro pre e post hen hpre he hs
    simp only [tweet_data, if_neg hcond, h2, Bool.false_eq_true, if_false, h3,
      hen]
    rw [scan_entities_append_no_match c em pre _ hpre]
    simp [scan_entities, he, hs]
  · intro urls hen hall
    simp only [tweet_data, if_neg hcond, h2, Bool.false_eq_true, if_false, h3,
      hen]
    rw [scan_entities_eq_find]
    rw [List.find?_eq_none.2 (fun x hx => by simp [hall x hx])]

/-- A record whose trailing `t.co` URL matches the second entity, whose
expansion is not a Twitter URL; a third, matching entity with a Twitter
expansion sits after it and must never be reached. -/
def quoteRecStops : TweetRecord :=
  { id_str := "4"
    created_at := "D"
    full_text := "see https://t.co/abc"
    entities_urls := some
      [⟨"https://t.co/zz", "https://twitter.com/x/status/1"⟩,
       ⟨"https://t.co/abc", "https://example.com/y"⟩,
       ⟨"https://t.co/abc", "https://twitter.com/good/status/5"⟩] }

/-- Witness for C6: scanning stops at the non-Twitter expansion even though a
later entity would have produced a quote. -/
theorem taupe_c6_scan_stops_witness :
    tweet_data false "me" quoteRecStops = some ("D",
      "https://twitter.com/me/status/4", "tweet", "") :=
  (taupe_c6_scan_stops false "me" quoteRecStops "https://t.co/abc"
      (by decide) (by decide) (by decide)).1
    [⟨"https://t.co/zz", "https://twitter.com/x/status/1"⟩]
    ⟨"https://t.co/abc", "https://example.com/y"⟩
    [⟨"https://t.co/abc", "https://twitter.com/good/status/5"⟩]
    rfl (by decide) rfl (by decide)

/-! ### Claim C7 -/

theorem replaceIWeb_no_occ (acc : List Char) (l : List Char)
    (h : ∀ a b : List Char, l ≠ a ++ 'i' :: '/' :: 'w' :: 'e' :: 'b' :: b) :
    replaceIWeb acc l = l := by
  induction l using replaceIWeb.induct with
  | account => exact acc
  | case1 rest ih => exact absurd rfl (h [] rest)
  | case2 c rest hside ih =>
    rw [replaceIWeb.eq_2 acc c rest hside]
    rw [ih (fun a b hc => h (c :: a) b (by rw [hc]; rfl))]
  | case3 => rfl

/-- **C7**: every tuple the like extractor produces has empty timestamp,
empty own URL and category `like`; the referenced URL is the record's
expanded URL with every occurrence of `i/web` replaced by `twitter` when
canonical, else by the owner handle (checked on concrete records, including
a double occurrence), and a URL with no occurrence passes through
unchanged. -/
theorem taupe_c7_like_tuples :
    (∀ (c : Bool) (u : String) (likes : List String) (x : Tup),
        x ∈ likes_from c u likes → x.1 = "" ∧ x.2.1 = "" ∧ x.2.2.1 = "like")
    ∧ likes_from false "alice" ["https://twitter.com/i/web/status/42"] =
        [("", "", "like", "https://twitter.com/alice/status/42")]
    ∧ likes_from true "alice" ["https://twitter.com/i/web/status/42"] =
        [("", "", "like", "https://twitter.com/twitter/status/42")]
    ∧ likes_from false "al" ["xi/webyi/webz"] = [("", "", "like", "xalyalz")]
    ∧ (∀ (c : Bool) (u : String) (url : String),
        (∀ a b : List Char, url.data ≠ a ++ 'i' :: '/' :: 'w' :: 'e' :: 'b' :: b) →
        likes_from c u [url] = [("", "", "like", url)]) := by
  refine ⟨?_, by decide, by decide, by decide, ?_⟩
  · intro c u likes x hx
    obtain ⟨url, -, rfl⟩ := List.mem_map.1 hx
    exact ⟨rfl, rfl, rfl⟩
  · intro c u url h
    simp only [likes_from, List.map_cons, List.map_nil]
    rw [replaceIWeb_no_occ _ _ h]

/-- Witness for C7 at a concrete like record. -/
theorem taupe_c7_like_tuples_witness :
    (("", "", "like", "https://twitter.com/alice/status/42") : Tup).1 = "" ∧
    (("", "", "like", "https://twitter.com/alice/status/42") : Tup).2.1 = "" ∧
    (("", "", "like", "https://twitter.com/alice/status/42") : Tup).2.2.1 =
      "like" :=
  taupe_c7_like_tuples.1 false "alice" ["https://twitter.com/i/web/status/42"]
    ("", "", "like", "https://twitter.com/alice/status/42") (by decide)

/-! ### Claim C8 -/

theorem intercalate_comma4 (a b c d : String) :
    String.intercalate "," [a, b, c, d] = a ++ "," ++ b ++ "," ++ c ++ "," ++ d := by
  simp [String.intercalate, String.intercalate.go]

theorem map_if_filter (cat : String) (proj : Tup → String) (rows : List Tup) :
    ((rows.map (fun r => if r.2.2.1 = cat then proj r else "")).filter
        (fun s => s != "")) =
      (((rows.filter (fun r => r.2.2.1 == cat)).map proj).filter
        (fun s => s != "")) := by
  induction rows with
  | nil => rfl
  | cons r rows ih =>
    by_cases h : r.2.2.1 = cat
    · simp [List.map_cons, List.filter_cons, h, ih]
    · simp [List.map_cons, List.filter_cons, h, ih]

/-- **C8**: the projection table — `all-tweets` joins the four fields with
commas in original order; `my-tweets` projects the own URL of every tuple;
`retweets` keeps the own URL exactly of `retweet` tuples; `quote-tweets` and
`reply-tweets` keep the referenced URL exactly of `quote` / `reply` tuples;
`likes` projects the referenced URL; and the pipeline drops exactly the rows
whose projection is empty. -/
theorem taupe_c8_projection :
    (∀ row : Tup, (data_filter "all-tweets").map (fun f => f row) =
        some (row.1 ++ "," ++ row.2.1 ++ "," ++ row.2.2.1 ++ "," ++ row.2.2.2))
    ∧ (∀ row : Tup, (data_filter "my-tweets").map (fun f => f row) =
        some row.2.1)
    ∧ (∀ row : Tup, (data_filter "retweets").map (fun f => f row) =
        some (if row.2.2.1 = "retweet" then row.2.1 else ""))
    ∧ (∀ row : Tup, (data_filter "quote-tweets").map (fun f => f row) =
        some (if row.2.2.1 = "quote" then row.2.2.2 else ""))
    ∧ (∀ row : Tup, (data_filter "reply-tweets").map (fun f => f row) =
        some (if row.2.2.1 = "reply" then row.2.2.2 else ""))
    ∧ (∀ row : Tup, (data_filter "likes").map (fun f => f row) =
        some row.2.2.2)
    ∧ (∀ rows : List Tup, filtered_rows "my-tweets" rows =
        some ((rows.map (fun r => r.2.1)).filter (fun s => s != "")))
    ∧ (∀ rows : List Tup, filtered_rows "retweets" rows =
        some (((rows.filter (fun r => r.2.2.1 == "retweet")).map
          (fun r => r.2.1)).filter (fun s => s != "")))
    ∧ (∀ rows : List Tup, filtered_rows "quote-tweets" rows =
        some (((rows.filter (fun r => r.2.2.1 == "quote")).map
          (fun r => r.2.2.2)).filter (fun s => s != "")))
    ∧ (∀ rows : List Tup, filtered_rows "reply-tweets" rows =
        some (((rows.filter (fun r => r.2.2.1 == "reply")).map
          (fun r => r.2.2.2)).filter (fun s => s != ""))) := by
  refine ⟨?_, fun row => rfl, fun row => rfl, fun row => rfl, fun row => rfl,
    fun row => rfl, fun rows => rfl, ?_, ?_, ?_⟩
  · intro row
    show some (String.intercalate "," [row.1, row.2.1, row.2.2.1, row.2.2.2]) = _
    rw [intercalate_comma4]
  · intro rows
    show some ((rows.map (fun r => if r.2.2.1 = "retweet" then r.2.1 else "")).filter
      (fun s => s != "")) = _
    rw [map_if_filter]
  · intro rows
    show some ((rows.map (fun r => if r.2.2.1 = "quote" then r.2.2.2 else "")).filter
      (fun s => s != "")) = _
    rw [map_if_filter]
  · intro rows
    show some ((rows.map (fun r => if r.2.2.1 = "reply" then r.2.2.2 else "")).filter
      (fun s => s != "")) = _
    rw [map_if_filter]

/-! ### Claim C9 -/

/-- **C9 counterexample**: a record whose full text ends with a `t.co` URL
but which has no URL-entity collection at all makes the classifier raise a
`KeyError` (modelled as `none`) instead of classifying it as `tweet`. -/
theorem taupe_c9_counterexample :
    tweet_data false "alice"
      { id_str := "3"
        created_at := "D"
        full_text := "see https://t.co/abc" } = none := by
  decide

/-- **C9 (amended)**: the classifier totally returns a tuple *except* in
exactly one situation: the record is not a reply, its text does not start
with `RT @`, the trailing `t.co` regex matches, and the URL-entity
collection is absent — there the entity lookup raises a `KeyError`.  In
particular every record with the entity collection present (even empty) is
classified. -/
theorem taupe_c9_totality (c : Bool) (u : String) (t : TweetRecord) :
    tweet_data c u t = none ↔
      (t.in_reply_to_status_id_str.getD "" = "" ∧
        pyStartsWith t.full_text "RT @" = false ∧
        (∃ em, trailingTco t.full_text = some em) ∧
        t.entities_urls = none) := by
  by_cases hr : t.in_reply_to_status_id_str.getD "" ≠ ""
  · simp only [tweet_data, if_pos hr]
    constructor
    · intro h
      exact absurd h (by simp)
    · rintro ⟨h1, -⟩
      exact absurd h1 hr
  · have hr' : t.in_reply_to_status_id_str.getD "" = "" := not_ne_iff.1 hr
    simp only [tweet_data, if_neg hr]
    by_cases hrt : pyStartsWith t.full_text "RT @" = true
    · simp [hrt]
    · have hrt' : pyStartsWith t.full_text "RT @" = false :=
        Bool.not_eq_true _ ▸ hrt
      simp only [hrt', Bool.false_eq_true, if_false]
      rcases htc : trailingTco t.full_text with _ | em
      · simp [htc, hr']
      · rcases hen : t.entities_urls with _ | urls
        · simp [htc, hen, hr', hrt']
        · simp [htc, hen]

end Taupe
